import Mathlib

/-!
Verification development for the SMA Sunny Boy simulator.

The definitions below are a shallow embedding of the C++ sources:
- `digital_twin.hpp` : register data model (types, access, values);
- `safe_data_model.cpp` : the register store (`initialize`, `getRegisterValue`,
  `setRegisterValue`, `getLogicalValue`, `setLogicalValue`);
- `modbus_server.cpp` : address translation (`protocolToInternal`,
  `internalToProtocol`) and the request-handling loop in `ModbusServer::run`;
- `simulation_engine.cpp` : the device state machine, daily-yield reset,
  solar power model and three-phase power split.

Machine integers are modelled as `Nat` / `Int` with explicit reductions
modulo powers of two where the C++ fixed-width types truncate; the C++
`double` arithmetic of the simulation engine is modelled over `ℝ`.
`std::unordered_map` is modelled as an association list with unique-key
insertion (`mapInsert` replaces the binding of an existing key in place);
list order stands for the map's iteration order.
-/

set_option maxHeartbeats 1000000

namespace SunnyBoy

/-- `enum class RegisterAccess` from digital_twin.hpp. -/
inductive RegisterAccess
  | RO
  | RW
  | WO
  deriving DecidableEq, Repr

/-- `enum class RegisterType` from digital_twin.hpp. -/
inductive RegisterType
  | U16
  | S16
  | U32
  | S32
  | U64
  | S64
  deriving DecidableEq, Repr

/-- `enum class RegisterFormat` from digital_twin.hpp (display semantics only). -/
inductive RegisterFormat
  | RAW
  | ENUM
  | FIX0
  | FIX1
  | FIX2
  | FIX3
  | FIX4
  | DT
  | FW
  | TEMP
  | Duration
  deriving DecidableEq, Repr

/-- The tagged union `std::variant<uint16_t, int16_t, uint32_t, int32_t, uint64_t, int64_t>`
holding a register's logical value.  Unsigned alternatives carry `Nat`,
signed ones carry `Int`. -/
inductive RegValue
  | u16 : Nat → RegValue
  | s16 : Int → RegValue
  | u32 : Nat → RegValue
  | s32 : Int → RegValue
  | u64 : Nat → RegValue
  | s64 : Int → RegValue
  deriving DecidableEq, Repr

/-- The variant alternative held by a `RegValue` (which C++ type it carries). -/
def RegValue.kind : RegValue → RegisterType
  | .u16 _ => .U16
  | .s16 _ => .S16
  | .u32 _ => .U32
  | .s32 _ => .S32
  | .u64 _ => .U64
  | .s64 _ => .S64

/-- Range constraints that the C++ fixed-width integer types impose on the
variant's payload: a `uint16_t` is `< 2^16`, an `int16_t` lies in
`[-2^15, 2^15)`, and so on. -/
def RegValue.wf : RegValue → Bool
  | .u16 v => v < 65536
  | .s16 v => -32768 ≤ v ∧ v < 32768
  | .u32 v => v < 4294967296
  | .s32 v => -2147483648 ≤ v ∧ v < 2147483648
  | .u64 v => v < 18446744073709551616
  | .s64 v => -9223372036854775808 ≤ v ∧ v < 9223372036854775808

/-- Number of 16-bit words a register of the given type occupies
(`reg.num_regs` assignments in `ConfigLoader::loadConfig`). -/
def RegisterType.numRegs : RegisterType → Nat
  | .U16 => 1
  | .S16 => 1
  | .U32 => 2
  | .S32 => 2
  | .U64 => 4
  | .S64 => 4

/-- `struct Register` from digital_twin.hpp. -/
structure Register where
  address : Nat
  type : RegisterType
  format : RegisterFormat
  access : RegisterAccess
  value : RegValue
  num_regs : Nat
  deriving DecidableEq, Repr

/-- Two's-complement bit pattern of a signed value, as produced by
`static_cast` to the unsigned type of the given bit width. -/
def toUnsigned (modulus : Nat) (i : Int) : Nat :=
  (i % (modulus : Int)).toNat

/-- `static_cast<int16_t>` applied to a 16-bit word. -/
def int16OfNat (n : Nat) : Int :=
  if n < 32768 then (n : Int) else (n : Int) - 65536

/-- `static_cast<int32_t>` applied to a 32-bit pattern. -/
def int32OfNat (n : Nat) : Int :=
  if n < 2147483648 then (n : Int) else (n : Int) - 4294967296

/-- `static_cast<int64_t>` applied to a 64-bit pattern. -/
def int64OfNat (n : Nat) : Int :=
  if n < 9223372036854775808 then (n : Int) else (n : Int) - 18446744073709551616

/-- Decomposition of a logical value into its big-endian list of 16-bit
words, exactly as in the `switch` statements of `SafeDataModel::initialize`
and `SafeDataModel::setLogicalValue`: `(val >> k) & 0xFFFF` is written
`val / 2^k % 2^16`. -/
def RegValue.toWords : RegValue → List Nat
  | .u16 v => [v]
  | .s16 v => [toUnsigned 65536 v]
  | .u32 v => [v / 65536 % 65536, v % 65536]
  | .s32 v =>
      let u := toUnsigned 4294967296 v
      [u / 65536 % 65536, u % 65536]
  | .u64 v => [v / 281474976710656 % 65536, v / 4294967296 % 65536,
               v / 65536 % 65536, v % 65536]
  | .s64 v =>
      let u := toUnsigned 18446744073709551616 v
      [u / 281474976710656 % 65536, u / 4294967296 % 65536,
       u / 65536 % 65536, u % 65536]

/-- Association-list model of `std::unordered_map<uint16_t, _>`. -/
abbrev AList (α : Type) := List (Nat × α)

/-- First binding of a key (`find`). -/
def mapFind {α : Type} : AList α → Nat → Option α
  | [], _ => none
  | (k', v) :: rest, k => if k' = k then some v else mapFind rest k

/-- `map[k] = v`: replace the binding of an existing key in place, or
append a fresh binding. -/
def mapInsert {α : Type} : AList α → Nat → α → AList α
  | [], k, v => [(k, v)]
  | (k', v') :: rest, k, v =>
      if k' = k then (k, v) :: rest else (k', v') :: mapInsert rest k v

/-- `class SafeDataModel` state: the logical register map and the 16-bit
word map (`modbus_register_map`). -/
structure SafeDataModel where
  logical_register_map : AList Register
  modbus_register_map : AList Nat
  deriving DecidableEq, Repr

/-- `modbus_register_map[a]` read during value reconstruction; C++
`operator[]` default-constructs a missing word to 0 (after `initialize`
every word of a mapped register's range is present, so the defaulting
never fires on reachable stores). -/
def wordAt (m : AList Nat) (a : Nat) : Nat :=
  (mapFind m a).getD 0

/-- Insert the words of a decomposed value at consecutive addresses
starting at `a` (the per-type bodies of the decomposition switches). -/
def insertWords : AList Nat → Nat → List Nat → AList Nat
  | m, _, [] => m
  | m, a, w :: ws => insertWords (mapInsert m a w) (a + 1) ws

/-- One loop iteration of `SafeDataModel::initialize`: insert the register
into the logical map and decompose its initial value into the word map. -/
def initRegister (m : SafeDataModel) (r : Register) : SafeDataModel :=
  { logical_register_map := mapInsert m.logical_register_map r.address r,
    modbus_register_map := insertWords m.modbus_register_map r.address r.value.toWords }

/-- The C++ member `SafeDataModel::initialize`, starting from empty maps
(the store is initialized exactly once). -/
def SafeDataModel.initializeStore (initial_registers : List Register) : SafeDataModel :=
  initial_registers.foldl initRegister ⟨[], []⟩

/-- `SafeDataModel::getRegisterValue`: the physical 16-bit word, if mapped. -/
def SafeDataModel.getRegisterValue (m : SafeDataModel) (address : Nat) : Option Nat :=
  mapFind m.modbus_register_map address

/-- The owner-lookup loop of `SafeDataModel::setRegisterValue`: first
logical register whose word range contains `address`, together with its key. -/
def findOwner : AList Register → Nat → Option (Nat × Register)
  | [], _ => none
  | (a, r) :: rest, address =>
      if a ≤ address ∧ address < a + r.num_regs then some (a, r)
      else findOwner rest address

/-- `SafeDataModel::setRegisterValue`.  `none` models the `false` return
(unmapped address or RO access), in which case the store is untouched;
`some` carries the updated store.  The reconstruction composes words with
`hi * 2^16 + lo`, equal to the C++ `(hi << 16) | lo` because every stored
word is a `uint16_t`. -/
def SafeDataModel.setRegisterValue (m : SafeDataModel) (address value : Nat) :
    Option SafeDataModel :=
  match findOwner m.logical_register_map address with
  | none => none
  | some (logical_addr, reg) =>
      if reg.access = RegisterAccess.RO then none
      else
        let words' := mapInsert m.modbus_register_map address value
        let newVal : RegValue :=
          match reg.type with
          | .U16 => .u16 value
          | .S16 => .s16 (int16OfNat value)
          | .U32 => .u32 (wordAt words' logical_addr * 65536 + wordAt words' (logical_addr + 1))
          | .S32 => .s32 (int32OfNat
              (wordAt words' logical_addr * 65536 + wordAt words' (logical_addr + 1)))
          | .U64 => .u64 (wordAt words' logical_addr * 281474976710656 +
              wordAt words' (logical_addr + 1) * 4294967296 +
              wordAt words' (logical_addr + 2) * 65536 +
              wordAt words' (logical_addr + 3))
          | .S64 => .s64 (int64OfNat (wordAt words' logical_addr * 281474976710656 +
              wordAt words' (logical_addr + 1) * 4294967296 +
              wordAt words' (logical_addr + 2) * 65536 +
              wordAt words' (logical_addr + 3)))
        some { logical_register_map :=
                 mapInsert m.logical_register_map logical_addr { reg with value := newVal },
               modbus_register_map := words' }

/-- `SafeDataModel::getLogicalValue`. -/
def SafeDataModel.getLogicalValue (m : SafeDataModel) (address : Nat) : Option RegValue :=
  (mapFind m.logical_register_map address).map Register.value

/-- `SafeDataModel::setLogicalValue`.  The C++ function performs no access
check at all.  An unmapped address is silently ignored (`some m`).  If the
variant alternative of `value` does not match the register's declared
type, the decomposition's `std::get` throws `std::bad_variant_access`
(uncaught, terminating the process): modelled as `none`. -/
def SafeDataModel.setLogicalValue (m : SafeDataModel) (address : Nat) (value : RegValue) :
    Option SafeDataModel :=
  match mapFind m.logical_register_map address with
  | none => some m
  | some reg =>
      if value.kind = reg.type then
        some { logical_register_map :=
                 mapInsert m.logical_register_map address { reg with value := value },
               modbus_register_map := insertWords m.modbus_register_map address value.toWords }
      else none

/-! ### Modbus server (modbus_server.cpp) -/

/-- `ModbusServer::protocolToInternal`: protocol (wire) address to the
config's logical address space.  The function receives only the address;
the Modbus function code is not a parameter. -/
def protocolToInternal (protocol_addr : Nat) : Nat :=
  if protocol_addr < 10000 then protocol_addr + 30000
  else if 10000 ≤ protocol_addr ∧ protocol_addr < 20000 then protocol_addr + 30000
  else protocol_addr

/-- `ModbusServer::internalToProtocol`. -/
def internalToProtocol (internal_addr : Nat) : Nat :=
  if 30000 ≤ internal_addr ∧ internal_addr < 40000 then internal_addr - 30000
  else if 40000 ≤ internal_addr ∧ internal_addr < 50000 then internal_addr - 30000
  else internal_addr

/-- The translation `ModbusServer::run` applies to a decoded request's
address: for every supported function code (0x03, 0x04, 0x06, 0x10) it
calls `protocolToInternal(addr)`; the function code never enters the
translation. -/
def requestAddressTranslation (_function_code protocol_addr : Nat) : Nat :=
  protocolToInternal protocol_addr

/-- The reply `ModbusServer::run` produces for one decoded request. -/
inductive ModbusResponse
  | readReply : List Nat → ModbusResponse
  | writeEcho : ModbusResponse
  | exception : Nat → ModbusResponse
  deriving DecidableEq, Repr

/-- The read-validation loop of `ModbusServer::run` (functions 0x03/0x04):
fetch `nb` consecutive words; `none` as soon as `all_valid` would be
cleared by an unmapped word. -/
def collectWords (m : SafeDataModel) : Nat → Nat → Option (List Nat)
  | _, 0 => some []
  | a, n + 1 =>
      match m.getRegisterValue a with
      | none => none
      | some v => (collectWords m (a + 1) n).map (fun vs => v :: vs)

/-- Handling of a read request (0x03/0x04) in `ModbusServer::run`: if any
requested word is unmapped, `modbus_reply_exception(..., ILLEGAL_DATA_ADDRESS)`
is sent (code 2); otherwise the fetched words are returned.  Reads never
mutate the store. -/
def handleRead (m : SafeDataModel) (protocol_addr nb : Nat) :
    ModbusResponse × SafeDataModel :=
  match collectWords m (protocolToInternal protocol_addr) nb with
  | none => (ModbusResponse.exception 2, m)
  | some vs => (ModbusResponse.readReply vs, m)

/-- A single word write whose failure is only logged, as in the write
loops of `ModbusServer::run`: on failure the store is left as it was. -/
def setRegisterValueD (m : SafeDataModel) (a v : Nat) : SafeDataModel :=
  (m.setRegisterValue a v).getD m

/-- The word loop of a 0x10 (write multiple) request: each word is
attempted independently; a failed word does not stop the loop. -/
def writeWords : SafeDataModel → Nat → List Nat → SafeDataModel
  | m, _, [] => m
  | m, a, v :: vs => writeWords (setRegisterValueD m a v) (a + 1) vs

/-- Handling of a 0x06 (write single) request in `ModbusServer::run`:
`modbus_reply` echoes a normal success reply from the mapping before the
write is attempted, and a failed write is only logged. -/
def handleWriteSingle (m : SafeDataModel) (protocol_addr value : Nat) :
    ModbusResponse × SafeDataModel :=
  (ModbusResponse.writeEcho, setRegisterValueD m (protocolToInternal protocol_addr) value)

/-- Handling of a 0x10 (write multiple) request in `ModbusServer::run`:
a success reply is sent first, then each word is written independently. -/
def handleWriteMultiple (m : SafeDataModel) (protocol_addr : Nat) (values : List Nat) :
    ModbusResponse × SafeDataModel :=
  (ModbusResponse.writeEcho, writeWords m (protocolToInternal protocol_addr) values)

/-! ### Simulation engine (simulation_engine.cpp) -/

/-- `enum class DeviceState` from simulation_engine.hpp. -/
inductive DeviceState
  | OFF
  | OK
  | WARNING
  | ERROR
  deriving DecidableEq, Repr

/-- The state-machine block of `SimulationEngine::updateSimulationState`
(step 2).  `op_state` and `ack_error` are the command registers read that
tick (with their defaults already substituted); `fault_fires` is the
outcome of the random draw `fault_dis(rng) < fault_probability_percent * temp_factor`. -/
def updateDeviceState (s : DeviceState) (op_state ack_error : Nat) (fault_fires : Bool) :
    DeviceState :=
  if ack_error = 26 ∧ s = DeviceState.ERROR then DeviceState.OK
  else if op_state = 381 then DeviceState.OFF
  else if s ≠ DeviceState.ERROR then
    if fault_fires then DeviceState.ERROR
    else if op_state = 295 then DeviceState.OK
    else s
  else s

/-- The daily-yield reset block at the top of
`SimulationEngine::updateSimulationState`: when the tick's day-of-month
differs from `last_daily_reset_day` and its hour equals the configured
reset hour, register 30517 is zeroed and the day recorded.  Returns the
updated store and the new `last_daily_reset_day`. -/
def dailyReset (m : SafeDataModel) (reset_hour last_daily_reset_day mday hour : Int) :
    SafeDataModel × Int :=
  if last_daily_reset_day ≠ mday ∧ hour = reset_hour then
    ((m.setLogicalValue 30517 (RegValue.u64 0)).getD m, mday)
  else (m, last_daily_reset_day)

/-- Iterated daily-reset checks over a list of `(mday, hour)` tick
observations. -/
def runTicks (m : SafeDataModel) (reset_hour : Int) : Int → List (Int × Int) → SafeDataModel × Int
  | last, [] => (m, last)
  | last, (mday, hour) :: rest =>
      let r := dailyReset m reset_hour last mday hour
      runTicks r.1 reset_hour r.2 rest

/-- The three-phase split of `updateSimulationState` (step 4): each of the
first two phases gets a third of the total scaled by its own random
imbalance factor, and the third phase is the remainder. -/
noncomputable def phaseSplit (ac_power_total e1 e2 : ℝ) : ℝ × ℝ × ℝ :=
  let ac_power_l1 := ac_power_total / 3 * (1 + e1)
  let ac_power_l2 := ac_power_total / 3 * (1 + e2)
  (ac_power_l1, ac_power_l2, ac_power_total - ac_power_l1 - ac_power_l2)

/-- Sunrise time from `SimulationEngine::calculatePowerOutput`. -/
noncomputable def sunriseTime (day_of_year : Int) : ℝ :=
  6 + 2 * Real.cos (2 * Real.pi * (day_of_year : ℝ) / 365)

/-- Sunset time from `SimulationEngine::calculatePowerOutput`. -/
noncomputable def sunsetTime (day_of_year : Int) : ℝ :=
  18 + 2 * Real.cos (2 * Real.pi * (day_of_year : ℝ) / 365)

/-- Seasonal factor from `SimulationEngine::calculatePowerOutput`. -/
noncomputable def seasonalFactor (day_of_year : Int) : ℝ :=
  0.8 + 0.4 * Real.sin (2 * Real.pi * ((day_of_year : ℝ) - 80) / 365)

/-- The bell-curve solar factor of `calculatePowerOutput`. -/
noncomputable def solarFactor (day_of_year : Int) (hour_of_day : ℝ) : ℝ :=
  let day_length := sunsetTime day_of_year - sunriseTime day_of_year
  let noon := (sunriseTime day_of_year + sunsetTime day_of_year) / 2
  let normalized_time := 2 * (hour_of_day - noon) / day_length
  Real.exp (-2 * normalized_time * normalized_time)

/-- `SimulationEngine::calculatePowerOutput` over ℝ.  The wall-clock and
random quantities are parameters: `hour_of_day` and `day_of_year` come
from `localtime`, `weather_multiplier` is the active weather model's
multiplier, `random_variation` is the draw from `uniform(0.9, 1.1)`. -/
noncomputable def calculatePowerOutput (max_power_watts weather_multiplier random_variation : ℝ)
    (day_of_year : Int) (hour_of_day : ℝ) : ℝ :=
  if hour_of_day < sunriseTime day_of_year ∨ hour_of_day > sunsetTime day_of_year then 0
  else max_power_watts * solarFactor day_of_year hour_of_day * seasonalFactor day_of_year *
    weather_multiplier * random_variation

/-! ### Map lemmas -/

theorem mapFind_mapInsert {α : Type} (m : AList α) (k : Nat) (v : α) (k' : Nat) :
    mapFind (mapInsert m k v) k' = if k = k' then some v else mapFind m k' := by
  induction m with
  | nil => simp [mapFind, mapInsert]
  | cons p rest ih =>
      obtain ⟨a, b⟩ := p
      by_cases hak : a = k
      · subst hak
        simp only [mapInsert, if_pos rfl, mapFind]
        by_cases hk : a = k'
        · subst hk; simp
        · simp [hk]
      · simp only [mapInsert, if_neg hak, mapFind]
        by_cases hk : a = k'
        · subst hk
          have hka : ¬ k = a := fun h => hak h.symm
          simp [mapFind, hka]
        · simp [hk, ih]

theorem mapFind_insertWords_lt (ws : List Nat) (m : AList Nat) (a b : Nat) (h : b < a) :
    mapFind (insertWords m a ws) b = mapFind m b := by
  induction ws generalizing m a with
  | nil => rfl
  | cons w ws ih =>
      simp only [insertWords]
      rw [ih (mapInsert m a w) (a + 1) (Nat.lt_succ_of_lt h)]
      rw [mapFind_mapInsert]
      have : ¬ a = b := by omega
      simp [this]

theorem mapFind_insertWords (ws : List Nat) (m : AList Nat) (a i : Nat)
    (h : i < ws.length) :
    mapFind (insertWords m a ws) (a + i) = some (ws.getD i 0) := by
  induction ws generalizing m a i with
  | nil => simp at h
  | cons w ws ih =>
      cases i with
      | zero =>
          simp only [insertWords, Nat.add_zero]
          rw [mapFind_insertWords_lt ws (mapInsert m a w) (a + 1) a (Nat.lt_succ_self a)]
          rw [mapFind_mapInsert]
          simp
      | succ j =>
          simp only [insertWords]
          have hj : j < ws.length := by simpa using h
          have := ih (mapInsert m a w) (a + 1) j hj
          have harith : a + 1 + j = a + (j + 1) := by omega
          rw [harith] at this
          simpa using this

theorem mapFind_isSome_mapInsert {α : Type} (m : AList α) (k : Nat) (v : α) (k' : Nat)
    (h : (mapFind m k').isSome) : (mapFind (mapInsert m k v) k').isSome := by
  rw [mapFind_mapInsert]
  by_cases hk : k = k' <;> simp [hk, h]

/-! ### Word-codec round trips -/

theorem toUnsigned_lt (modulus : Nat) (i : Int) (h : 0 < modulus) :
    toUnsigned modulus i < modulus := by
  unfold toUnsigned
  have h0 : (0 : Int) < (modulus : Int) := by exact_mod_cast h
  have h1 := Int.emod_nonneg i (ne_of_gt h0)
  have h2 := Int.emod_lt_of_pos i h0
  omega

theorem int16OfNat_toUnsigned (i : Int) (h1 : -32768 ≤ i) (h2 : i < 32768) :
    int16OfNat (toUnsigned 65536 i) = i := by
  unfold int16OfNat toUnsigned
  omega

theorem int32OfNat_toUnsigned (i : Int) (h1 : -2147483648 ≤ i) (h2 : i < 2147483648) :
    int32OfNat (toUnsigned 4294967296 i) = i := by
  unfold int32OfNat toUnsigned
  omega

theorem int64OfNat_toUnsigned (i : Int)
    (h1 : -9223372036854775808 ≤ i) (h2 : i < 9223372036854775808) :
    int64OfNat (toUnsigned 18446744073709551616 i) = i := by
  unfold int64OfNat toUnsigned
  omega

/-- Big-endian word composition as stated by the spec: the most-significant
16 bits occupy the lowest physical address.  `w i` is the word read at
offset `i` from the register's base address. -/
def composeBE (t : RegisterType) (w : Nat → Nat) : RegValue :=
  match t with
  | .U16 => .u16 (w 0)
  | .S16 => .s16 (int16OfNat (w 0))
  | .U32 => .u32 (w 0 * 65536 + w 1)
  | .S32 => .s32 (int32OfNat (w 0 * 65536 + w 1))
  | .U64 => .u64 (w 0 * 281474976710656 + w 1 * 4294967296 + w 2 * 65536 + w 3)
  | .S64 => .s64 (int64OfNat (w 0 * 281474976710656 + w 1 * 4294967296 + w 2 * 65536 + w 3))

theorem composeBE_toWords (v : RegValue) (hwf : v.wf = true) :
    composeBE v.kind (fun i => v.toWords.getD i 0) = v := by
  cases v with
  | u16 n => rfl
  | s16 i =>
      simp only [RegValue.wf, decide_eq_true_eq] at hwf
      simp only [RegValue.kind, RegValue.toWords, composeBE, List.getD_cons_zero]
      rw [int16OfNat_toUnsigned i hwf.1 hwf.2]
  | u32 n =>
      simp only [RegValue.wf, decide_eq_true_eq] at hwf
      simp only [RegValue.kind, RegValue.toWords, composeBE, List.getD_cons_zero,
        List.getD_cons_succ]
      have : n / 65536 % 65536 * 65536 + n % 65536 = n := by omega
      rw [this]
  | s32 i =>
      simp only [RegValue.wf, decide_eq_true_eq] at hwf
      simp only [RegValue.kind, RegValue.toWords, composeBE, List.getD_cons_zero,
        List.getD_cons_succ]
      have hu : toUnsigned 4294967296 i < 4294967296 := toUnsigned_lt _ _ (by norm_num)
      have heq : toUnsigned 4294967296 i / 65536 % 65536 * 65536 +
          toUnsigned 4294967296 i % 65536 = toUnsigned 4294967296 i := by omega
      rw [heq, int32OfNat_toUnsigned i hwf.1 hwf.2]
  | u64 n =>
      simp only [RegValue.wf, decide_eq_true_eq] at hwf
      simp only [RegValue.kind, RegValue.toWords, composeBE, List.getD_cons_zero,
        List.getD_cons_succ]
      have : n / 281474976710656 % 65536 * 281474976710656 +
          n / 4294967296 % 65536 * 4294967296 + n / 65536 % 65536 * 65536 + n % 65536 = n := by
        omega
      rw [this]
  | s64 i =>
      simp only [RegValue.wf, decide_eq_true_eq] at hwf
      simp only [RegValue.kind, RegValue.toWords, composeBE, List.getD_cons_zero,
        List.getD_cons_succ]
      have hu : toUnsigned 18446744073709551616 i < 18446744073709551616 :=
        toUnsigned_lt _ _ (by norm_num)
      have heq : toUnsigned 18446744073709551616 i / 281474976710656 % 65536 * 281474976710656 +
          toUnsigned 18446744073709551616 i / 4294967296 % 65536 * 4294967296 +
          toUnsigned 18446744073709551616 i / 65536 % 65536 * 65536 +
          toUnsigned 18446744073709551616 i % 65536 = toUnsigned 18446744073709551616 i := by
        omega
      rw [heq, int64OfNat_toUnsigned i hwf.1 hwf.2]

/-! ### Owner structure of the logical map -/

/-- The key list of an association map. -/
def mapKeys {α : Type} (m : AList α) : List Nat :=
  m.map Prod.fst

/-- The data of a word's owning register that decides a write's fate:
owning key, width, access mode. -/
def ownerInfo (L : AList Register) (b : Nat) : Option (Nat × Nat × RegisterAccess) :=
  (findOwner L b).map (fun p => (p.1, p.2.num_regs, p.2.access))

/-- Whether `setRegisterValue` rejects a write at word `b`: the word is
unmapped or its owner is read-only. -/
def ownerFails (L : AList Register) (b : Nat) : Bool :=
  match ownerInfo L b with
  | none => true
  | some (_, _, acc) => decide (acc = RegisterAccess.RO)

theorem ownerFails_congr (L L' : AList Register) (b : Nat)
    (h : ownerInfo L b = ownerInfo L' b) : ownerFails L b = ownerFails L' b := by
  unfold ownerFails
  rw [h]

theorem setRegisterValue_none_iff (m : SafeDataModel) (a v : Nat) :
    m.setRegisterValue a v = none ↔ ownerFails m.logical_register_map a = true := by
  unfold SafeDataModel.setRegisterValue ownerFails ownerInfo
  rcases hfo : findOwner m.logical_register_map a with _ | ⟨la, reg⟩
  · simp
  · by_cases hro : reg.access = RegisterAccess.RO
    · simp [hro]
    · simp [hro]

theorem mapFind_mem_keys {α : Type} (m : AList α) (k : Nat) (r : α)
    (h : mapFind m k = some r) : k ∈ mapKeys m := by
  induction m with
  | nil => simp [mapFind] at h
  | cons p rest ih =>
      obtain ⟨a, b⟩ := p
      by_cases hak : a = k
      · subst hak; simp [mapKeys]
      · simp only [mapFind, if_neg hak] at h
        simp [mapKeys] at ih ⊢
        exact Or.inr (ih h)

theorem findOwner_mapFind (L : AList Register) (b la : Nat) (reg : Register)
    (hnodup : (mapKeys L).Nodup) (h : findOwner L b = some (la, reg)) :
    mapFind L la = some reg := by
  induction L with
  | nil => simp [findOwner] at h
  | cons p rest ih =>
      obtain ⟨k, x⟩ := p
      simp only [mapKeys, List.map_cons, List.nodup_cons] at hnodup
      by_cases hcond : k ≤ b ∧ b < k + x.num_regs
      · simp only [findOwner, if_pos hcond] at h
        obtain ⟨hk, hx⟩ := Prod.mk.injEq .. ▸ (Option.some.injEq .. ▸ h)
        subst hk; subst hx
        simp [mapFind]
      · simp only [findOwner, if_neg hcond] at h
        have hrest := ih hnodup.2 h
        have hne : ¬ k = la := by
          intro hk
          subst hk
          exact hnodup.1 (mapFind_mem_keys rest k reg hrest)
        simp [mapFind, hne, hrest]

theorem mapKeys_mapInsert {α : Type} (m : AList α) (k : Nat) (v : α) (r : α)
    (h : mapFind m k = some r) : mapKeys (mapInsert m k v) = mapKeys m := by
  induction m with
  | nil => simp [mapFind] at h
  | cons p rest ih =>
      obtain ⟨a, b⟩ := p
      by_cases hak : a = k
      · subst hak; simp [mapInsert, mapKeys]
      · simp only [mapFind, if_neg hak] at h
        simp [mapInsert, hak, mapKeys] at ih ⊢
        exact ih h

theorem ownerInfo_mapInsert (L : AList Register) (la : Nat) (r r' : Register) (b : Nat)
    (hfind : mapFind L la = some r)
    (hnum : r'.num_regs = r.num_regs) (hacc : r'.access = r.access) :
    ownerInfo (mapInsert L la r') b = ownerInfo L b := by
  induction L with
  | nil => simp [mapFind] at hfind
  | cons p rest ih =>
      obtain ⟨k, x⟩ := p
      by_cases hk : k = la
      · subst hk
        have hxr : x = r := by simpa [mapFind] using hfind
        subst hxr
        have hins : mapInsert ((k, x) :: rest) k r' = (k, r') :: rest := by
          simp [mapInsert]
        rw [hins]
        unfold ownerInfo findOwner
        by_cases hcond : k ≤ b ∧ b < k + x.num_regs
        · rw [if_pos (by omega : k ≤ b ∧ b < k + r'.num_regs), if_pos hcond]
          simp [hnum, hacc]
        · rw [if_neg (by omega : ¬ (k ≤ b ∧ b < k + r'.num_regs)), if_neg hcond]
      · simp only [mapFind, if_neg hk] at hfind
        simp only [mapInsert, if_neg hk]
        unfold ownerInfo findOwner
        by_cases hcond : k ≤ b ∧ b < k + x.num_regs
        · rw [if_pos hcond, if_pos hcond]
        · rw [if_neg hcond, if_neg hcond]
          exact ih hfind

theorem setRegisterValue_some_words (m m' : SafeDataModel) (a v : Nat)
    (h : m.setRegisterValue a v = some m') :
    ∀ b, b ≠ a → mapFind m'.modbus_register_map b = mapFind m.modbus_register_map b := by
  unfold SafeDataModel.setRegisterValue at h
  rcases hfo : findOwner m.logical_register_map a with _ | ⟨la, reg⟩
  · rw [hfo] at h; simp at h
  · rw [hfo] at h
    dsimp only at h
    by_cases hro : reg.access = RegisterAccess.RO
    · rw [if_pos hro] at h; simp at h
    · rw [if_neg hro] at h
      simp only [Option.some.injEq] at h
      subst h
      intro b hb
      have hab : ¬ a = b := fun hEq => hb hEq.symm
      simp only []
      rw [mapFind_mapInsert]
      simp [hab]

theorem setRegisterValue_some_preserves (m m' : SafeDataModel) (a v : Nat)
    (hnodup : (mapKeys m.logical_register_map).Nodup)
    (h : m.setRegisterValue a v = some m') :
    (∀ b, ownerInfo m'.logical_register_map b = ownerInfo m.logical_register_map b) ∧
    mapKeys m'.logical_register_map = mapKeys m.logical_register_map ∧
    (∀ b, b ≠ a → mapFind m'.modbus_register_map b = mapFind m.modbus_register_map b) := by
  unfold SafeDataModel.setRegisterValue at h
  rcases hfo : findOwner m.logical_register_map a with _ | ⟨la, reg⟩
  · rw [hfo] at h; simp at h
  · rw [hfo] at h
    dsimp only at h
    by_cases hro : reg.access = RegisterAccess.RO
    · rw [if_pos hro] at h; simp at h
    · rw [if_neg hro] at h
      simp only [Option.some.injEq] at h
      subst h
      have hkey : mapFind m.logical_register_map la = some reg :=
        findOwner_mapFind m.logical_register_map a la reg hnodup hfo
      refine ⟨fun b => ?_, ?_, fun b hb => ?_⟩
      · exact ownerInfo_mapInsert m.logical_register_map la reg _ b hkey rfl rfl
      · exact mapKeys_mapInsert m.logical_register_map la _ reg hkey
      · have hab : ¬ a = b := fun hEq => hb hEq.symm
        simp only []
        rw [mapFind_mapInsert]
        simp [hab]

theorem setRegisterValueD_preserves (m : SafeDataModel) (a v : Nat)
    (hnodup : (mapKeys m.logical_register_map).Nodup) :
    (∀ b, ownerInfo (setRegisterValueD m a v).logical_register_map b =
        ownerInfo m.logical_register_map b) ∧
    mapKeys (setRegisterValueD m a v).logical_register_map = mapKeys m.logical_register_map ∧
    (∀ b, b ≠ a → mapFind (setRegisterValueD m a v).modbus_register_map b =
        mapFind m.modbus_register_map b) := by
  unfold setRegisterValueD
  rcases hs : m.setRegisterValue a v with _ | m'
  · simp
  · simpa using setRegisterValue_some_preserves m m' a v hnodup hs

theorem writeWords_getRegisterValue_lt (vs : List Nat) (m : SafeDataModel) (a b : Nat)
    (h : b < a) :
    (writeWords m a vs).getRegisterValue b = m.getRegisterValue b := by
  induction vs generalizing m a with
  | nil => rfl
  | cons v vs ih =>
      simp only [writeWords]
      rw [ih (setRegisterValueD m a v) (a + 1) (Nat.lt_succ_of_lt h)]
      unfold SafeDataModel.getRegisterValue setRegisterValueD
      rcases hs : m.setRegisterValue a v with _ | m'
      · rfl
      · have := (setRegisterValue_some_words m m' a v hs) b (by omega)
        simpa using this

theorem writeWords_failed_word (vs : List Nat) (m : SafeDataModel) (a i : Nat)
    (hnodup : (mapKeys m.logical_register_map).Nodup)
    (hfail : ownerFails m.logical_register_map (a + i) = true)
    (hi : i < vs.length) :
    (writeWords m a vs).getRegisterValue (a + i) = m.getRegisterValue (a + i) := by
  induction vs generalizing m a i with
  | nil => simp at hi
  | cons v vs ih =>
      simp only [writeWords]
      cases i with
      | zero =>
          have hnone : m.setRegisterValue a v = none := by
            rw [setRegisterValue_none_iff]
            simpa using hfail
          have hm1 : setRegisterValueD m a v = m := by
            unfold setRegisterValueD
            rw [hnone]
            rfl
          rw [hm1, Nat.add_zero]
          exact writeWords_getRegisterValue_lt vs m (a + 1) a (Nat.lt_succ_self a)
      | succ j =>
          obtain ⟨hinfo, hkeys, hwords⟩ := setRegisterValueD_preserves m a v hnodup
          have hnodup1 : (mapKeys (setRegisterValueD m a v).logical_register_map).Nodup := by
            rw [hkeys]; exact hnodup
          have hfail1 : ownerFails (setRegisterValueD m a v).logical_register_map
              (a + 1 + j) = true := by
            rw [ownerFails_congr _ m.logical_register_map _ (hinfo (a + 1 + j))]
            have : a + 1 + j = a + (j + 1) := by omega
            rw [this]
            exact hfail
          have hj : j < vs.length := by simpa using hi
          have hih := ih (setRegisterValueD m a v) (a + 1) j hnodup1 hfail1 hj
          have harith : a + 1 + j = a + (j + 1) := by omega
          rw [harith] at hih
          rw [hih]
          unfold SafeDataModel.getRegisterValue
          exact hwords (a + (j + 1)) (by omega)

theorem collectWords_none (m : SafeDataModel) (n a : Nat)
    (h : ∃ i, i < n ∧ m.getRegisterValue (a + i) = none) :
    collectWords m a n = none := by
  induction n generalizing a with
  | zero =>
      obtain ⟨i, hi, _⟩ := h
      omega
  | succ n ih =>
      obtain ⟨i, hi, hnone⟩ := h
      cases i with
      | zero =>
          rw [Nat.add_zero] at hnone
          simp [collectWords, hnone]
      | succ j =>
          simp only [collectWords]
          rcases hg : m.getRegisterValue a with _ | v
          · rfl
          · have : collectWords m (a + 1) n = none := by
              refine ih (a + 1) ⟨j, by omega, ?_⟩
              have : a + 1 + j = a + (j + 1) := by omega
              rw [this]
              exact hnone
            rw [this]
            rfl

theorem mapFind_isSome_foldl_init (regs : List Register) (acc : SafeDataModel) (k : Nat)
    (h : (mapFind acc.logical_register_map k).isSome) :
    (mapFind ((regs.foldl initRegister acc).logical_register_map) k).isSome := by
  induction regs generalizing acc with
  | nil => exact h
  | cons r rest ih =>
      simp only [List.foldl_cons]
      exact ih (initRegister acc r)
        (mapFind_isSome_mapInsert acc.logical_register_map r.address r k h)

theorem initialize_mem_isSome (regs : List Register) (acc : SafeDataModel) (r : Register)
    (h : r ∈ regs) :
    (mapFind ((regs.foldl initRegister acc).logical_register_map) r.address).isSome := by
  induction regs generalizing acc with
  | nil => simp at h
  | cons r0 rest ih =>
      simp only [List.foldl_cons]
      rcases List.mem_cons.mp h with hEq | hmem
      · subst hEq
        refine mapFind_isSome_foldl_init rest (initRegister acc r) r.address ?_
        show (mapFind (mapInsert acc.logical_register_map r.address r) r.address).isSome
        rw [mapFind_mapInsert]
        simp
      · exact ih (initRegister acc r0) hmem

/-- Modelled from the spec (§3, §8): no two registers' physical word
ranges `[address, address + width_words)` overlap. -/
def rangesDisjoint (regs : List Register) : Prop :=
  List.Pairwise (fun r1 r2 =>
    r1.address + r1.num_regs ≤ r2.address ∨ r2.address + r2.num_regs ≤ r1.address) regs

instance (regs : List Register) : Decidable (rangesDisjoint regs) := by
  unfold rangesDisjoint
  exact List.instDecidablePairwise regs

theorem toWords_length (v : RegValue) : v.toWords.length = v.kind.numRegs := by
  cases v <;> rfl

theorem composeBE_congr (t : RegisterType) (w w' : Nat → Nat)
    (h : ∀ i, i < t.numRegs → w i = w' i) : composeBE t w = composeBE t w' := by
  cases t with
  | U16 => simp only [composeBE]; rw [h 0 (by decide)]
  | S16 => simp only [composeBE]; rw [h 0 (by decide)]
  | U32 => simp only [composeBE]; rw [h 0 (by decide), h 1 (by decide)]
  | S32 => simp only [composeBE]; rw [h 0 (by decide), h 1 (by decide)]
  | U64 =>
      simp only [composeBE]
      rw [h 0 (by decide), h 1 (by decide), h 2 (by decide), h 3 (by decide)]
  | S64 =>
      simp only [composeBE]
      rw [h 0 (by decide), h 1 (by decide), h 2 (by decide), h 3 (by decide)]

/-- A small register set in the shape of a live configuration: RO
telemetry registers (AC power 30775, daily yield 30517) and command
registers (40001/40002 artificial one-word examples, 40009 the
operating-state command). -/
def exampleRegisters : List Register :=
  [ { address := 30517, type := RegisterType.U64, format := RegisterFormat.FIX0,
      access := RegisterAccess.RO, value := RegValue.u64 999, num_regs := 4 },
    { address := 30775, type := RegisterType.S32, format := RegisterFormat.FIX0,
      access := RegisterAccess.RO, value := RegValue.s32 0, num_regs := 2 },
    { address := 40001, type := RegisterType.U16, format := RegisterFormat.RAW,
      access := RegisterAccess.RW, value := RegValue.u16 5, num_regs := 1 },
    { address := 40002, type := RegisterType.U16, format := RegisterFormat.RAW,
      access := RegisterAccess.RO, value := RegValue.u16 7, num_regs := 1 },
    { address := 40009, type := RegisterType.U32, format := RegisterFormat.ENUM,
      access := RegisterAccess.RW, value := RegValue.u32 295, num_regs := 2 } ]

/-- The store built from `exampleRegisters`. -/
def exampleStore : SafeDataModel :=
  SafeDataModel.initializeStore exampleRegisters

/-- Two registers with overlapping physical word ranges:
`[30513, 30517)` and `[30515, 30517)`. -/
def overlappingRegisters : List Register :=
  [ { address := 30513, type := RegisterType.U64, format := RegisterFormat.FIX0,
      access := RegisterAccess.RO, value := RegValue.u64 123456, num_regs := 4 },
    { address := 30515, type := RegisterType.U32, format := RegisterFormat.FIX0,
      access := RegisterAccess.RO, value := RegValue.u32 7, num_regs := 2 } ]

/-! ### Claims -/

/-- C1 counterexample: the claim says the protocol-to-logical translation
is qualified by the function code, with `logical = protocol + 30001` for
function 0x04 and `logical = protocol + 40001` for 0x03/0x06/0x10.  The
server instead applies the same function-code-independent map everywhere:
protocol address 775 under function 0x04 is translated to 30775 (not
30776), and under function 0x03 also to 30775 (not 40776). -/
theorem c1_translation_counterexample :
    requestAddressTranslation 4 775 = 30775 ∧
    requestAddressTranslation 4 775 ≠ 775 + 30001 ∧
    requestAddressTranslation 3 775 ≠ 775 + 40001 ∧
    requestAddressTranslation 6 9 ≠ 9 + 40001 ∧
    requestAddressTranslation 16 9 ≠ 9 + 40001 := by
  decide

/-- C1 (amended): for every supported function code the translation is the
same: a protocol address below 20000 is mapped to `protocol + 30000`
(covering the 30xxx range at offsets 0–9999 and the 40xxx range at offsets
10000–19999), and any other protocol address is passed through unchanged;
the function code never affects the result. -/
theorem c1_translation_uniform (function_code function_code' protocol_addr : Nat) :
    (protocol_addr < 20000 →
      requestAddressTranslation function_code protocol_addr = protocol_addr + 30000) ∧
    (20000 ≤ protocol_addr →
      requestAddressTranslation function_code protocol_addr = protocol_addr) ∧
    requestAddressTranslation function_code protocol_addr =
      requestAddressTranslation function_code' protocol_addr := by
  refine ⟨fun h => ?_, fun h => ?_, rfl⟩
  · unfold requestAddressTranslation protocolToInternal
    split_ifs with h1 h2 <;> omega
  · unfold requestAddressTranslation protocolToInternal
    split_ifs with h1 h2 <;> omega

/-- C1 witness: the amended translation law evaluated at function 0x04,
protocol address 775. -/
theorem c1_translation_uniform_witness :
    (775 < 20000 → requestAddressTranslation 4 775 = 775 + 30000) ∧
    (20000 ≤ 775 → requestAddressTranslation 4 775 = 775) ∧
    requestAddressTranslation 4 775 = requestAddressTranslation 3 775 :=
  c1_translation_uniform 4 3 775

/-- C6: from state `OK`, a tick that reads 381 in the operating-state
command register moves the device state to `OFF`, for every value of the
acknowledge-error register and both outcomes of the tick's random fault
draw. -/
theorem c6_stop_precedence (ack_error : Nat) (fault_fires : Bool) :
    updateDeviceState DeviceState.OK 381 ack_error fault_fires = DeviceState.OFF := by
  unfold updateDeviceState
  have h1 : ¬ (ack_error = 26 ∧ DeviceState.OK = DeviceState.ERROR) := by
    rintro ⟨-, h⟩
    exact absurd h (by decide)
  rw [if_neg h1, if_pos rfl]

/-- C7: the two independently perturbed phase powers plus the balancing
third phase sum exactly to the total AC power, for every total and every
pair of imbalance draws (exact equality of the real-valued model; the
engine publishes these values truncated to `int32`). -/
theorem c7_phase_conservation (ac_power_total e1 e2 : ℝ) :
    (phaseSplit ac_power_total e1 e2).1 + (phaseSplit ac_power_total e1 e2).2.1 +
      (phaseSplit ac_power_total e1 e2).2.2 = ac_power_total := by
  unfold phaseSplit
  ring

/-- C10: on the whole logical address range 30000–49999 the two
translation functions are mutually inverse: converting a logical address
to its protocol address and back yields the original address. -/
theorem c10_translation_roundtrip (a : Nat) (h1 : 30000 ≤ a) (h2 : a < 50000) :
    protocolToInternal (internalToProtocol a) = a := by
  unfold protocolToInternal internalToProtocol
  split_ifs <;> omega

/-- C10 witness: the round trip evaluated at logical address 40009. -/
theorem c10_translation_roundtrip_witness :
    30000 ≤ 40009 ∧ 40009 < 50000 ∧ protocolToInternal (internalToProtocol 40009) = 40009 :=
  ⟨by decide, by decide, c10_translation_roundtrip 40009 (by decide) (by decide)⟩

/-- C3 counterexample: the claim says a write to an RO register through
ANY path fails and leaves the stored value unchanged.  `setLogicalValue`
performs no access check: on the RO register 30775 it succeeds and changes
the stored value from 0 to 1234. -/
theorem c3_ro_write_counterexample :
    (mapFind exampleStore.logical_register_map 30775).map Register.access =
      some RegisterAccess.RO ∧
    exampleStore.getLogicalValue 30775 = some (RegValue.s32 0) ∧
    ((exampleStore.setLogicalValue 30775 (RegValue.s32 1234)).bind
      (fun m => m.getLogicalValue 30775)) = some (RegValue.s32 1234) := by
  decide

/-- C3 (amended): `setRegisterValue` (the word path) fails on an RO-owned
or unmapped word and, failing, changes nothing; on a word owned by an
RW/WO register it always succeeds.  `setLogicalValue` (the logical path)
bypasses access control entirely: it succeeds on any mapped register —
RO included — whenever the value's variant matches the register's type. -/
theorem c3_access_control (m : SafeDataModel) (a v addr : Nat) (lv : RegValue)
    (la : Nat) (reg reg' : Register) :
    (findOwner m.logical_register_map a = some (la, reg) →
      reg.access = RegisterAccess.RO → m.setRegisterValue a v = none) ∧
    (findOwner m.logical_register_map a = some (la, reg) →
      reg.access ≠ RegisterAccess.RO → ∃ m', m.setRegisterValue a v = some m') ∧
    (findOwner m.logical_register_map a = none → m.setRegisterValue a v = none) ∧
    (mapFind m.logical_register_map addr = some reg' → lv.kind = reg'.type →
      ∃ m', m.setLogicalValue addr lv = some m') := by
  refine ⟨fun hfo hro => ?_, fun hfo hro => ?_, fun hfo => ?_, fun hfind hkind => ?_⟩
  · unfold SafeDataModel.setRegisterValue
    rw [hfo]
    dsimp only
    rw [if_pos hro]
  · unfold SafeDataModel.setRegisterValue
    rw [hfo]
    dsimp only
    rw [if_neg hro]
    exact ⟨_, rfl⟩
  · unfold SafeDataModel.setRegisterValue
    rw [hfo]
  · unfold SafeDataModel.setLogicalValue
    rw [hfind]
    dsimp only
    rw [if_pos hkind]
    exact ⟨_, rfl⟩

/-- C3 witness: on `exampleStore`, the word write at 30776 (owned by the
RO register 30775) fails, the word write at 40001 (RW) succeeds, and the
logical write to the RW register 40009 succeeds. -/
theorem c3_access_control_witness :
    exampleStore.setRegisterValue 30776 1 = none ∧
    (∃ m', exampleStore.setRegisterValue 40001 9 = some m') ∧
    (∃ m', exampleStore.setLogicalValue 40009 (RegValue.u32 381) = some m') :=
  ⟨(c3_access_control exampleStore 30776 1 40009 (RegValue.u32 381) 30775
      { address := 30775, type := RegisterType.S32, format := RegisterFormat.FIX0,
        access := RegisterAccess.RO, value := RegValue.s32 0, num_regs := 2 }
      { address := 40009, type := RegisterType.U32, format := RegisterFormat.ENUM,
        access := RegisterAccess.RW, value := RegValue.u32 295, num_regs := 2 }).1
      (by decide) (by decide),
   (c3_access_control exampleStore 40001 9 40009 (RegValue.u32 381) 40001
      { address := 40001, type := RegisterType.U16, format := RegisterFormat.RAW,
        access := RegisterAccess.RW, value := RegValue.u16 5, num_regs := 1 }
      { address := 40009, type := RegisterType.U32, format := RegisterFormat.ENUM,
        access := RegisterAccess.RW, value := RegValue.u32 295, num_regs := 2 }).2.1
      (by decide) (by decide),
   (c3_access_control exampleStore 40001 9 40009 (RegValue.u32 381) 40001
      { address := 40001, type := RegisterType.U16, format := RegisterFormat.RAW,
        access := RegisterAccess.RW, value := RegValue.u16 5, num_regs := 1 }
      { address := 40009, type := RegisterType.U32, format := RegisterFormat.ENUM,
        access := RegisterAccess.RW, value := RegValue.u32 295, num_regs := 2 }).2.2.2
      (by decide) (by decide)⟩

/-- C4: for every register kind, writing a well-formed matching value `v`
through `setLogicalValue` at a mapped address and reading it back through
`getLogicalValue` returns exactly `v`, and the 16-bit words read back via
`getRegisterValue` at `addr .. addr + width - 1` reconstruct `v` under
big-endian word composition (most-significant word at the lowest
address). -/
theorem c4_roundtrip (m : SafeDataModel) (addr : Nat) (reg : Register) (v : RegValue)
    (hfind : mapFind m.logical_register_map addr = some reg)
    (hkind : v.kind = reg.type)
    (hwf : v.wf = true) :
    ∃ m', m.setLogicalValue addr v = some m' ∧
      m'.getLogicalValue addr = some v ∧
      composeBE v.kind (fun i => (m'.getRegisterValue (addr + i)).getD 0) = v := by
  unfold SafeDataModel.setLogicalValue
  rw [hfind]
  dsimp only
  rw [if_pos hkind]
  refine ⟨_, rfl, ?_, ?_⟩
  · unfold SafeDataModel.getLogicalValue
    dsimp only
    rw [mapFind_mapInsert]
    simp
  · have hwords : ∀ i, i < v.kind.numRegs →
        ((⟨mapInsert m.logical_register_map addr { reg with value := v },
           insertWords m.modbus_register_map addr v.toWords⟩ :
             SafeDataModel).getRegisterValue (addr + i)).getD 0 = v.toWords.getD i 0 := by
      intro i hi
      unfold SafeDataModel.getRegisterValue
      dsimp only
      rw [mapFind_insertWords v.toWords m.modbus_register_map addr i
        (by rw [toWords_length]; exact hi)]
      rfl
    rw [composeBE_congr v.kind _ (fun i => v.toWords.getD i 0) hwords]
    exact composeBE_toWords v hwf

/-- C4 witness: the round trip on `exampleStore` at the S32 register
30775 with value -70000. -/
theorem c4_roundtrip_witness :
    mapFind exampleStore.logical_register_map 30775 =
      some { address := 30775, type := RegisterType.S32, format := RegisterFormat.FIX0,
             access := RegisterAccess.RO, value := RegValue.s32 0, num_regs := 2 } ∧
    (∃ m', exampleStore.setLogicalValue 30775 (RegValue.s32 (-70000)) = some m' ∧
      m'.getLogicalValue 30775 = some (RegValue.s32 (-70000)) ∧
      composeBE (RegValue.s32 (-70000)).kind
        (fun i => (m'.getRegisterValue (30775 + i)).getD 0) = RegValue.s32 (-70000)) :=
  ⟨by decide,
   c4_roundtrip exampleStore 30775
     { address := 30775, type := RegisterType.S32, format := RegisterFormat.FIX0,
       access := RegisterAccess.RO, value := RegValue.s32 0, num_regs := 2 }
     (RegValue.s32 (-70000)) (by decide) (by decide) (by decide)⟩

/-- C2 counterexample: a function 0x10 write of two words at protocol
address 10001 (internal 40001, RW; internal 40002, RO).  The claim says
the whole request must fail with exception 0x02 and leave both words
unchanged.  The server instead echoes a normal success reply and commits
the first word (40001 becomes 9) while only the RO word is skipped —
a partial write becomes visible. -/
theorem c2_partial_write_counterexample :
    (handleWriteMultiple exampleStore 10001 [9, 9]).1 = ModbusResponse.writeEcho ∧
    (handleWriteMultiple exampleStore 10001 [9, 9]).1 ≠ ModbusResponse.exception 2 ∧
    exampleStore.getRegisterValue 40001 = some 5 ∧
    (handleWriteMultiple exampleStore 10001 [9, 9]).2.getRegisterValue 40001 = some 9 ∧
    (handleWriteMultiple exampleStore 10001 [9, 9]).2.getRegisterValue 40002 = some 7 := by
  decide

/-- C2 (amended): reads are all-or-nothing — a read request with any
unmapped word among its `nb` words is answered with exception 0x02 and a
read never mutates the store.  Writes are not: the server always replies
with a normal echo (never an exception), attempts each word
independently, and a word whose own write is rejected (unmapped or
RO-owned) keeps its old value even though the other words of the same
request are still written. -/
theorem c2_read_write_semantics (m : SafeDataModel) (protocol_addr nb v i : Nat)
    (values : List Nat)
    (hnodup : (mapKeys m.logical_register_map).Nodup)
    (hfail : ownerFails m.logical_register_map (protocolToInternal protocol_addr + i) = true)
    (hi : i < values.length) :
    ((∃ j, j < nb ∧ m.getRegisterValue (protocolToInternal protocol_addr + j) = none) →
      handleRead m protocol_addr nb = (ModbusResponse.exception 2, m)) ∧
    (handleRead m protocol_addr nb).2 = m ∧
    (handleWriteSingle m protocol_addr v).1 = ModbusResponse.writeEcho ∧
    (handleWriteMultiple m protocol_addr values).1 = ModbusResponse.writeEcho ∧
    (handleWriteMultiple m protocol_addr values).2.getRegisterValue
        (protocolToInternal protocol_addr + i) =
      m.getRegisterValue (protocolToInternal protocol_addr + i) := by
  refine ⟨fun hj => ?_, ?_, rfl, rfl, ?_⟩
  · unfold handleRead
    rw [collectWords_none m nb (protocolToInternal protocol_addr) hj]
  · unfold handleRead
    rcases collectWords m (protocolToInternal protocol_addr) nb with _ | vs <;> rfl
  · exact writeWords_failed_word values m (protocolToInternal protocol_addr) i hnodup hfail hi

/-- C2 witness: the amended semantics evaluated on `exampleStore` for a
3-word read at protocol address 10001 (word 40003 unmapped) and the
2-word write of the counterexample (word index 1 lands on the RO register
40002 and keeps its value 7). -/
theorem c2_read_write_semantics_witness :
    ((∃ j, j < 3 ∧ exampleStore.getRegisterValue (protocolToInternal 10001 + j) = none) →
      handleRead exampleStore 10001 3 = (ModbusResponse.exception 2, exampleStore)) ∧
    (handleRead exampleStore 10001 3).2 = exampleStore ∧
    (handleWriteSingle exampleStore 10001 9).1 = ModbusResponse.writeEcho ∧
    (handleWriteMultiple exampleStore 10001 [9, 9]).1 = ModbusResponse.writeEcho ∧
    (handleWriteMultiple exampleStore 10001 [9, 9]).2.getRegisterValue
        (protocolToInternal 10001 + 1) =
      exampleStore.getRegisterValue (protocolToInternal 10001 + 1) :=
  c2_read_write_semantics exampleStore 10001 3 9 1 [9, 9]
    (by decide) (by decide) (by decide)

/-- C8 counterexample: reset hour 0, last reset recorded on day-of-month
4.  The first tick of the new calendar day 5 arrives at local hour 1 —
after the reset boundary was crossed.  The claim says the daily-yield
accumulator is zeroed on this first tick at/after the boundary; the code
requires the tick's hour to equal the reset hour exactly, so nothing is
zeroed and the day is not recorded. -/
theorem c8_reset_miss_counterexample :
    dailyReset exampleStore 0 4 5 1 = (exampleStore, 4) ∧
    exampleStore.getLogicalValue 30517 = some (RegValue.u64 999) := by
  decide

/-- C8 (amended): a tick zeroes the daily-yield accumulator (register
30517) exactly when its day-of-month differs from the recorded
last-reset day AND its local hour equals the configured reset hour; a
tick of a new day at any other hour does not fire, and once a day is
recorded no tick with the same day-of-month fires again, so the reset
fires at most once per calendar day. -/
theorem c8_daily_reset (m : SafeDataModel) (reset_hour last mday hour : Int)
    (hnew : last ≠ mday) :
    (hour = reset_hour →
      dailyReset m reset_hour last mday hour =
        ((m.setLogicalValue 30517 (RegValue.u64 0)).getD m, mday)) ∧
    (hour ≠ reset_hour → dailyReset m reset_hour last mday hour = (m, last)) ∧
    (∀ ticks : List (Int × Int), (∀ t ∈ ticks, t.1 = mday) →
      runTicks m reset_hour mday ticks = (m, mday)) := by
  refine ⟨fun hh => ?_, fun hh => ?_, fun ticks hticks => ?_⟩
  · unfold dailyReset
    rw [if_pos ⟨hnew, hh⟩]
  · unfold dailyReset
    rw [if_neg (fun hc => hh hc.2)]
  · induction ticks with
    | nil => rfl
    | cons t rest ih =>
        obtain ⟨md, hr⟩ := t
        have hmd : md = mday := hticks (md, hr) (List.mem_cons_self _ _)
        subst hmd
        simp only [runTicks]
        have hstep : dailyReset m reset_hour md md hr = (m, md) := by
          unfold dailyReset
          rw [if_neg (fun hc => hc.1 rfl)]
        rw [hstep]
        exact ih (fun t ht => hticks t (List.mem_cons_of_mem _ ht))

/-- C8 witness: on `exampleStore` with reset hour 0 and last reset day 4,
the tick (day 5, hour 0) fires and zeroes 30517, and afterwards two more
ticks of day 5 change nothing. -/
theorem c8_daily_reset_witness :
    (dailyReset exampleStore 0 4 5 0 =
      ((exampleStore.setLogicalValue 30517 (RegValue.u64 0)).getD exampleStore, 5)) ∧
    runTicks exampleStore 0 5 [(5, 0), (5, 1)] = (exampleStore, 5) :=
  ⟨(c8_daily_reset exampleStore 0 4 5 0 (by decide)).1 rfl,
   (c8_daily_reset exampleStore 0 4 5 0 (by decide)).2.2 [(5, 0), (5, 1)] (by decide)⟩

/-- C9 counterexample: `overlappingRegisters` violates range
disjointness, yet `initialize` accepts it without any rejection or flag:
both registers end up mapped, and the second register's decomposition has
silently overwritten word 30515 of the first (the word holding bit 16 of
123456 was 1, it now reads 0), leaving the stored logical value 123456
inconsistent with its own words. -/
theorem c9_overlap_accepted_counterexample :
    ¬ rangesDisjoint overlappingRegisters ∧
    (mapFind (SafeDataModel.initializeStore overlappingRegisters).logical_register_map
      30513).isSome = true ∧
    (mapFind (SafeDataModel.initializeStore overlappingRegisters).logical_register_map
      30515).isSome = true ∧
    (SafeDataModel.initializeStore overlappingRegisters).getRegisterValue 30515 = some 0 ∧
    (SafeDataModel.initializeStore overlappingRegisters).getLogicalValue 30513 =
      some (RegValue.u64 123456) := by
  decide

/-- C9 (amended): `initialize` performs no disjointness validation at
all: for ANY input list — overlapping ranges included — every listed
register is inserted into the logical map (later entries overwriting
shared physical words), and the operation signals nothing. -/
theorem c9_initialize_accepts (regs : List Register) (r : Register) (h : r ∈ regs) :
    (mapFind (SafeDataModel.initializeStore regs).logical_register_map r.address).isSome = true :=
  initialize_mem_isSome regs ⟨[], []⟩ r h

/-- C9 witness: `initialize` accepts the overlapping register list and
maps its first register. -/
theorem c9_initialize_accepts_witness :
    (mapFind (SafeDataModel.initializeStore overlappingRegisters).logical_register_map
      30513).isSome = true :=
  c9_initialize_accepts overlappingRegisters
    { address := 30513, type := RegisterType.U64, format := RegisterFormat.FIX0,
      access := RegisterAccess.RO, value := RegValue.u64 123456, num_regs := 4 }
    (by decide)

theorem seasonalFactor_le (d : Int) : seasonalFactor d ≤ 1.2 := by
  unfold seasonalFactor
  have h := Real.sin_le_one (2 * Real.pi * ((d : ℝ) - 80) / 365)
  nlinarith

theorem seasonalFactor_ge (d : Int) : 0.4 ≤ seasonalFactor d := by
  unfold seasonalFactor
  have h := Real.neg_one_le_sin (2 * Real.pi * ((d : ℝ) - 80) / 365)
  nlinarith

theorem solarFactor_pos (d : Int) (hour : ℝ) : 0 < solarFactor d hour := by
  unfold solarFactor
  exact Real.exp_pos _

theorem solarFactor_le_one (d : Int) (hour : ℝ) : solarFactor d hour ≤ 1 := by
  unfold solarFactor
  rw [Real.exp_le_one_iff]
  nlinarith [mul_self_nonneg (2 * (hour - (sunriseTime d + sunsetTime d) / 2) /
    (sunsetTime d - sunriseTime d))]

/-- C5 (amended): `calculatePowerOutput` returns exactly 0 outside the
sunrise–sunset window.  Inside the window it returns a strictly positive
value, but the value is the unclamped product
`rated × solar_factor × seasonal_factor × weather × variation`: the bound
must include the seasonal factor's maximum 1.2 — the output is at most
`rated × weather × (1 + 0.1) × 1.2` — and no clamp to rated power is
applied (the output can exceed rated power, see the counterexample). -/
theorem c5_power_window (max_power weather variation : ℝ) (d : Int) (hour : ℝ)
    (hmax : 0 < max_power) (hw : 0 < weather)
    (hv1 : 0.9 ≤ variation) (hv2 : variation ≤ 1.1) :
    ((hour < sunriseTime d ∨ hour > sunsetTime d) →
      calculatePowerOutput max_power weather variation d hour = 0) ∧
    (sunriseTime d ≤ hour → hour ≤ sunsetTime d →
      0 < calculatePowerOutput max_power weather variation d hour ∧
      calculatePowerOutput max_power weather variation d hour ≤
        max_power * weather * (1 + 0.1) * 1.2) := by
  constructor
  · intro h
    unfold calculatePowerOutput
    rw [if_pos h]
  · intro h1 h2
    have hwin : ¬ (hour < sunriseTime d ∨ hour > sunsetTime d) := by
      rintro (h | h) <;> linarith
    unfold calculatePowerOutput
    rw [if_neg hwin]
    have hsol0 : 0 < solarFactor d hour := solarFactor_pos d hour
    have hsol1 : solarFactor d hour ≤ 1 := solarFactor_le_one d hour
    have hsea0 : 0.4 ≤ seasonalFactor d := seasonalFactor_ge d
    have hsea1 : seasonalFactor d ≤ 1.2 := seasonalFactor_le d
    have hv0 : 0 < variation := by linarith
    constructor
    · have := mul_pos (mul_pos (mul_pos (mul_pos hmax hsol0) (by linarith :
        (0:ℝ) < seasonalFactor d)) hw) hv0
      linarith
    · calc max_power * solarFactor d hour * seasonalFactor d * weather * variation
          = (max_power * weather) * (solarFactor d hour * (seasonalFactor d * variation)) := by
            ring
        _ ≤ (max_power * weather) * (1 * (1.2 * 1.1)) := by
            have hmw : (0:ℝ) ≤ max_power * weather := le_of_lt (mul_pos hmax hw)
            have h1 : solarFactor d hour * (seasonalFactor d * variation) ≤
                1 * (seasonalFactor d * variation) := by
              apply mul_le_mul_of_nonneg_right hsol1
              nlinarith
            have h2 : seasonalFactor d * variation ≤ 1.2 * 1.1 := by
              nlinarith
            have h3 : 1 * (seasonalFactor d * variation) ≤ 1 * (1.2 * 1.1) := by
              nlinarith
            exact mul_le_mul_of_nonneg_left (le_trans h1 h3) hmw
        _ = max_power * weather * (1 + 0.1) * 1.2 := by ring_nf

/-- C5 witness: the amended window law evaluated at rated power 1,
weather multiplier 1, variation 1, day 0, hour 0 (before sunrise: the
output is 0) and at hour 12 (inside the window). -/
theorem c5_power_window_witness :
    (0:ℝ) < 1 ∧
    (((0:ℝ) < sunriseTime 0 ∨ (0:ℝ) > sunsetTime 0) →
      calculatePowerOutput 1 1 1 0 0 = 0) ∧
    (sunriseTime 0 ≤ (12:ℝ) → (12:ℝ) ≤ sunsetTime 0 →
      0 < calculatePowerOutput 1 1 1 0 12 ∧
      calculatePowerOutput 1 1 1 0 12 ≤ 1 * 1 * (1 + 0.1) * 1.2) :=
  ⟨one_pos,
   (c5_power_window 1 1 1 0 0 one_pos one_pos (by norm_num) (by norm_num)).1,
   (c5_power_window 1 1 1 0 12 one_pos one_pos (by norm_num) (by norm_num)).2⟩

/-- C5 counterexample: at solar noon of day-of-year 171 with weather
multiplier 1 and variation draw 1.1, the output exceeds both the claimed
bound `rated × weather × (1 + variation bound)` and rated power itself —
the claimed clamp to rated power does not exist (the seasonal factor,
up to 1.2, is missing from the claimed bound). -/
theorem c5_no_clamp_counterexample :
    calculatePowerOutput 1 1 1.1 171 ((sunriseTime 171 + sunsetTime 171) / 2) >
      1 * 1 * (1 + 0.1) ∧
    calculatePowerOutput 1 1 1.1 171 ((sunriseTime 171 + sunsetTime 171) / 2) > 1 := by
  have hlen : sunsetTime 171 - sunriseTime 171 = 12 := by
    unfold sunsetTime sunriseTime
    ring
  have hwin : ¬ ((sunriseTime 171 + sunsetTime 171) / 2 < sunriseTime 171 ∨
      (sunriseTime 171 + sunsetTime 171) / 2 > sunsetTime 171) := by
    rintro (h | h) <;> linarith
  have hsolar : solarFactor 171 ((sunriseTime 171 + sunsetTime 171) / 2) = 1 := by
    unfold solarFactor
    simp only [sub_self, mul_zero, zero_div, zero_mul, neg_zero, Real.exp_zero]
  have hpi := Real.pi_pos
  have hsin : Real.sin (Real.pi / 3) ≤ Real.sin (2 * Real.pi * 91 / 365) := by
    apply (Real.strictMonoOn_sin.monotoneOn)
    · constructor
      · linarith
      · linarith
    · constructor
      · linarith
      · linarith
    · linarith
  have hsqrt : (1.7 : ℝ) < Real.sqrt 3 := by
    rw [Real.lt_sqrt (by norm_num)]
    norm_num
  have hsin2 : (0.85 : ℝ) < Real.sin (2 * Real.pi * 91 / 365) := by
    rw [Real.sin_pi_div_three] at hsin
    nlinarith
  have hsea : (1.14 : ℝ) < seasonalFactor 171 := by
    unfold seasonalFactor
    have hcast : ((171 : Int) : ℝ) - 80 = 91 := by norm_num
    rw [hcast]
    nlinarith
  have hval : calculatePowerOutput 1 1 1.1 171 ((sunriseTime 171 + sunsetTime 171) / 2) =
      seasonalFactor 171 * 1.1 := by
    unfold calculatePowerOutput
    rw [if_neg hwin, hsolar]
    ring
  rw [hval]
  constructor <;> nlinarith

end SunnyBoy
